import Mathlib

set_option maxRecDepth 100000

/-!
Verification of the SSE streaming decoder and incremental message assembler
of the anthropic-go-sdk repository (package `streaming`, file stream.go, with
the data model from package `models`).

The Go source is shallowly embedded: structs become structures, nil-able
pointer fields become `Option`, the `switch` in `MessageStream.updateMessage`
becomes a match on the event type string, and the stdlib collaborators
(`encoding/json.Unmarshal`, `bufio.Reader.ReadBytes`, `strings.HasPrefix`,
`bytes.TrimSpace`) are modelled by executable Lean functions with the
documented Go semantics.
-/

namespace Anthropic

/-! ### JSON values and a model of Go `encoding/json` parsing

`json.Unmarshal` into `map[string]interface{}` (used by `updateMessage` for
tool-use input accumulation) and into the `Event` struct (used by `Next`) are
modelled on top of one JSON text parser.  Numbers keep their source literal:
no claim depends on Go's float64 numeric interpretation, only on parse
success/failure and on structural equality of two parses of equal strings.
Objects keep their fields in source order (with Go's last-duplicate-wins
handled at the struct-decoding layer, which folds fields in order). -/
inductive JVal where
  | null
  | bool (b : Bool)
  | num (lit : String)
  | str (s : String)
  | arr (elems : List JVal)
  | obj (fields : List (String × JVal))

/-- JSON whitespace accepted by Go's decoder: space, tab, newline, carriage
return. -/
def isJsonWs (c : Char) : Bool :=
  c = ' ' || c = '\t' || c = '\n' || c = '\r'

def skipWs (cs : List Char) : List Char :=
  cs.dropWhile isJsonWs

def hexDigit (c : Char) : Option Nat :=
  let n := c.toNat
  if 48 ≤ n ∧ n ≤ 57 then some (n - 48)
  else if 97 ≤ n ∧ n ≤ 102 then some (n - 87)
  else if 65 ≤ n ∧ n ≤ 70 then some (n - 55)
  else none

/-- Body of a JSON string literal (after the opening quote), with the escape
sequences Go accepts; control characters below 0x20 are a parse error. -/
def parseJStr : Nat → List Char → List Char → Option (String × List Char)
  | 0, _, _ => none
  | fuel + 1, cs, acc =>
    match cs with
    | [] => none
    | c :: rest =>
      if c = '"' then some (String.mk acc.reverse, rest)
      else if c = '\\' then
        match rest with
        | [] => none
        | e :: rest2 =>
          if e = '"' then parseJStr fuel rest2 ('"' :: acc)
          else if e = '\\' then parseJStr fuel rest2 ('\\' :: acc)
          else if e = '/' then parseJStr fuel rest2 ('/' :: acc)
          else if e = 'b' then parseJStr fuel rest2 ('\x08' :: acc)
          else if e = 'f' then parseJStr fuel rest2 ('\x0c' :: acc)
          else if e = 'n' then parseJStr fuel rest2 ('\n' :: acc)
          else if e = 'r' then parseJStr fuel rest2 ('\r' :: acc)
          else if e = 't' then parseJStr fuel rest2 ('\t' :: acc)
          else if e = 'u' then
            match rest2 with
            | h1 :: h2 :: h3 :: h4 :: rest3 =>
              match hexDigit h1, hexDigit h2, hexDigit h3, hexDigit h4 with
              | some a, some b, some c2, some d =>
                parseJStr fuel rest3
                  (Char.ofNat (((a * 16 + b) * 16 + c2) * 16 + d) :: acc)
              | _, _, _, _ => none
            | _ => none
          else none
      else if c.toNat < 32 then none
      else parseJStr fuel rest (c :: acc)

/-- A JSON number literal: optional minus, integer part without leading
zeros, optional fraction, optional exponent.  Returns the literal text. -/
def parseJNum (cs : List Char) : Option (String × List Char) :=
  let signAndRest : List Char × List Char :=
    match cs with
    | '-' :: r => (['-'], r)
    | _ => ([], cs)
  let sign := signAndRest.1
  let cs1 := signAndRest.2
  match cs1 with
  | c :: rest =>
    if c = '0' then
      let intPart := [c]
      let cs2 := rest
      parseJNumFrac sign intPart cs2
    else if c.isDigit then
      let intPart := (c :: rest).takeWhile Char.isDigit
      let cs2 := (c :: rest).dropWhile Char.isDigit
      parseJNumFrac sign intPart cs2
    else none
  | [] => none
where
  parseJNumFrac (sign intPart : List Char) (cs2 : List Char) :
      Option (String × List Char) :=
    let fracAndRest : Option (List Char × List Char) :=
      match cs2 with
      | '.' :: r =>
        let ds := r.takeWhile Char.isDigit
        if ds = [] then none else some ('.' :: ds, r.dropWhile Char.isDigit)
      | _ => some ([], cs2)
    match fracAndRest with
    | none => none
    | some (fracPart, cs3) =>
      let expAndRest : Option (List Char × List Char) :=
        match cs3 with
        | e :: r =>
          if e = 'e' ∨ e = 'E' then
            let signedR : List Char × List Char :=
              match r with
              | s :: r2 => if s = '+' ∨ s = '-' then ([s], r2) else ([], r)
              | [] => ([], r)
            let ds := signedR.2.takeWhile Char.isDigit
            if ds = [] then none
            else some (e :: (signedR.1 ++ ds), signedR.2.dropWhile Char.isDigit)
          else some ([], cs3)
        | [] => some ([], cs3)
      match expAndRest with
      | none => none
      | some (expPart, cs4) =>
        some (String.mk (sign ++ intPart ++ fracPart ++ expPart), cs4)

/-- Mode of the single-function JSON recursive-descent parser: a value, the
members of an object (after the opening brace, first member not yet read), or
the elements of an array. -/
inductive PMode where
  | val
  | members (acc : List (String × JVal))
  | elems (acc : List JVal)

/-- One JSON parser for values / object members / array elements, fuelled so
that the recursion is structural (and hence computes by kernel reduction).
`goParseJson` supplies fuel that is always sufficient. -/
def parseJ : Nat → PMode → List Char → Option (JVal × List Char)
  | 0, _, _ => none
  | fuel + 1, PMode.val, cs =>
    match skipWs cs with
    | [] => none
    | c :: rest =>
      if c = '\x7b' then
        match skipWs rest with
        | '\x7d' :: r2 => some (.obj [], r2)
        | cs1 => parseJ fuel (.members []) cs1
      else if c = '[' then
        match skipWs rest with
        | ']' :: r2 => some (.arr [], r2)
        | cs1 => parseJ fuel (.elems []) cs1
      else if c = '"' then
        match parseJStr (rest.length + 1) rest [] with
        | some (s, r) => some (.str s, r)
        | none => none
      else if c = 't' then
        match rest with
        | 'r' :: 'u' :: 'e' :: r => some (.bool true, r)
        | _ => none
      else if c = 'f' then
        match rest with
        | 'a' :: 'l' :: 's' :: 'e' :: r => some (.bool false, r)
        | _ => none
      else if c = 'n' then
        match rest with
        | 'u' :: 'l' :: 'l' :: r => some (.null, r)
        | _ => none
      else
        match parseJNum (c :: rest) with
        | some (lit, r) => some (.num lit, r)
        | none => none
  | fuel + 1, PMode.members acc, cs =>
    match skipWs cs with
    | '"' :: rest =>
      match parseJStr (rest.length + 1) rest [] with
      | some (key, r1) =>
        match skipWs r1 with
        | ':' :: r2 =>
          match parseJ fuel .val r2 with
          | some (v, r3) =>
            match skipWs r3 with
            | ',' :: r4 => parseJ fuel (.members (acc ++ [(key, v)])) r4
            | '\x7d' :: r4 => some (.obj (acc ++ [(key, v)]), r4)
            | _ => none
          | none => none
        | _ => none
      | none => none
    | _ => none
  | fuel + 1, PMode.elems acc, cs =>
    match parseJ fuel .val cs with
    | some (v, r1) =>
      match skipWs r1 with
      | ',' :: r2 => parseJ fuel (.elems (acc ++ [v])) r2
      | ']' :: r2 => some (.arr (acc ++ [v]), r2)
      | _ => none
    | none => none

/-- Model of a whole-input `json.Unmarshal` parse: one JSON value surrounded
by optional whitespace; anything trailing is an error. -/
def goParseJson (s : String) : Option JVal :=
  match parseJ (2 * s.length + 8) .val s.toList with
  | some (v, rest) => if skipWs rest = [] then some v else none
  | none => none

/-- Model of `json.Unmarshal(data, &inputObj)` for
`inputObj map[string]interface{}`: the input must be a single JSON object.
(Go also accepts a literal `null`, leaving the map nil; that case is
unreachable from `updateMessage`, which only calls this on buffers that start
with an opening brace.) -/
def goUnmarshalObj (s : String) : Option (List (String × JVal)) :=
  match goParseJson s with
  | some (.obj fields) => some fields
  | _ => none

/-! ### Go string/byte helpers used by stream.go -/

/-- `strings.HasPrefix` / `bytes.HasPrefix` on character lists. -/
def listStartsWith : List Char → List Char → Bool
  | _, [] => true
  | [], _ :: _ => false
  | c :: cs, p :: ps => c = p && listStartsWith cs ps

/-- `strings.HasPrefix s p`. -/
def goStartsWith (s p : String) : Bool :=
  listStartsWith s.toList p.toList

/-- `strings.HasSuffix s p`. -/
def goEndsWith (s p : String) : Bool :=
  listStartsWith s.toList.reverse p.toList.reverse

/-- The whitespace trimmed by `bytes.TrimSpace` (`unicode.IsSpace`),
restricted to the ASCII range relevant here. -/
def isGoSpace (c : Char) : Bool :=
  c = ' ' || c = '\t' || c = '\n' || c = '\r' || c = '\x0b' || c = '\x0c'

/-- `bytes.TrimSpace` on a character list. -/
def trimSpace (cs : List Char) : List Char :=
  ((cs.dropWhile isGoSpace).reverse.dropWhile isGoSpace).reverse

/-! ### The models package data types (models.go)

Go string-typed enums (`ContentType`, `Role`, `StopReason`, `EventType`) are
embedded as `String`; their constant values appear literally. -/

structure TextBlock where
  type : String
  text : String

structure ImageSource where
  type : String
  mediaType : String
  data : String
  url : String

structure ImageBlock where
  type : String
  source : ImageSource

/-- `ToolUseBlock.Input` is `interface{}` in Go: `none` is the nil interface,
`some v` a decoded JSON value. -/
structure ToolUseBlock where
  type : String
  id : String
  name : String
  input : Option JVal

structure ToolResultBlock where
  type : String
  toolUseID : String
  content : String
  isError : Bool

structure ThinkingBlock where
  type : String
  thinking : String
  signature : String

structure RedactedThinkingBlock where
  type : String
  data : String

/-- `models.ContentBlock`: a struct of six nil-able pointers, at most one of
which is populated. -/
structure ContentBlock where
  textContent : Option TextBlock := none
  imageContent : Option ImageBlock := none
  toolUseContent : Option ToolUseBlock := none
  toolResultContent : Option ToolResultBlock := none
  thinkingContent : Option ThinkingBlock := none
  redactedThinkingContent : Option RedactedThinkingBlock := none

/-- The zero value `models.ContentBlock{}`, used as the gap-filling
placeholder by `updateMessage`. -/
def emptyBlock : ContentBlock := {}

structure Usage where
  inputTokens : Int := 0
  outputTokens : Int := 0

structure Message where
  id : String := ""
  role : String := ""
  content : List ContentBlock := []
  model : String := ""
  stopReason : String := ""
  stopSequence : String := ""
  usage : Usage := {}

/-- The zero value `models.Message{}` that `NewMessageStream` installs. -/
def emptyMessage : Message := {}

/-! ### The streaming package (stream.go) -/

/-- `streaming.Delta`; all fields are Go strings with zero value `""`. -/
structure Delta where
  type : String := ""
  text : String := ""
  partialJSON : String := ""
  thinking : String := ""
  signature : String := ""

/-- `streaming.Event`.  The `index` field is `*int` in Go; the protocol's
indices are zero-based (spec section 3), so it is embedded as `Option Nat`
(the event JSON decoder rejects negative indices, where the Go code would
crash on the slice access). -/
structure Event where
  type : String := ""
  message : Option Message := none
  stopReason : Option String := none
  index : Option Nat := none
  contentBlock : Option ContentBlock := none
  delta : Option Delta := none
  usage : Option Usage := none

/-- The two terminal error kinds of `MessageStream.Next`: a failed underlying
read (`"error reading stream"`) and a failed event unmarshal
(`"error parsing event"`). -/
inductive StreamErr where
  | transport
  | decode

/-- The underlying byte stream handed to `NewMessageStream`: the remaining
bytes, plus whether the reader fails with a non-EOF error once they are
exhausted (`false` means clean EOF). -/
structure ByteSource where
  data : List Char
  trailingErr : Bool := false

/-- `streaming.MessageStream`.  The Go `jsonBuffers map[int]string` reads of
missing keys yield `""`, so it is embedded as a total function with default
`""`. -/
structure MessageStream where
  reader : ByteSource
  currentEvent : Option Event := none
  err : Option StreamErr := none
  message : Message := emptyMessage
  jsonBuffers : Nat → String := fun _ => ""

/-- `NewMessageStream`. -/
def newMessageStream (input : String) (trailingErr : Bool := false) :
    MessageStream :=
  { reader := { data := input.toList, trailingErr := trailingErr } }

/-- Pointwise update of the `jsonBuffers` map. -/
def setBuf (f : Nat → String) (i : Nat) (v : String) : Nat → String :=
  fun j => if j = i then v else f j

/-- The placeholder-appending loop
`for len(s.message.Content) <= idx { append(content, ContentBlock{}) }`. -/
def growContent (content : List ContentBlock) (idx : Nat) : List ContentBlock :=
  content ++ List.replicate (idx + 1 - content.length) emptyBlock

/-- `MessageStream.updateMessage`.  The Go guard `idx < len(content)` plus the
subsequent `content[idx]` reads appear here as a match on the `Option`-valued
lookup `content[idx]?`,
which succeeds exactly when the guard holds.  The source's empty
`if event.ContentBlock.TextContent != nil && ... {}` branch in the start case
is a no-op and has no counterpart. -/
def updateMessage (s : MessageStream) (event : Event) : MessageStream :=
  if event.type = "message_start" then
    match event.message with
    | some m =>
      let m' := { s.message with id := m.id, role := m.role, model := m.model }
      { s with message := m' }
    | none => s
  else if event.type = "content_block_start" then
    match event.contentBlock, event.index with
    | some cb, some idx =>
      let content' := (growContent s.message.content idx).set idx cb
      { s with
        message := { s.message with content := content' },
        jsonBuffers :=
          if cb.toolUseContent.isSome then setBuf s.jsonBuffers idx "" else s.jsonBuffers }
    | _, _ => s
  else if event.type = "content_block_delta" then
    match event.delta, event.index with
    | some d, some idx =>
      match s.message.content[idx]? with
      | none => s
      | some blk =>
        if d.type = "text_delta" then
          match blk.textContent with
          | some tb =>
            let blk' := { blk with textContent := some { tb with text := tb.text ++ d.text } }
            { s with message := { s.message with content := s.message.content.set idx blk' } }
          | none => s
        else if d.type = "input_json_delta" then
          match blk.toolUseContent with
          | some tub =>
            let buf := s.jsonBuffers idx ++ d.partialJSON
            if goStartsWith buf "\x7b" && goEndsWith buf "\x7d" then
              match goUnmarshalObj buf with
              | some inputObj =>
                let blk' :=
                  { blk with toolUseContent := some { tub with input := some (.obj inputObj) } }
                { s with
                  jsonBuffers := setBuf s.jsonBuffers idx buf,
                  message := { s.message with content := s.message.content.set idx blk' } }
              | none => { s with jsonBuffers := setBuf s.jsonBuffers idx buf }
            else { s with jsonBuffers := setBuf s.jsonBuffers idx buf }
          | none => s
        else if d.type = "thinking_delta" then
          match blk.thinkingContent with
          | some th =>
            let blk' :=
              { blk with thinkingContent := some { th with thinking := th.thinking ++ d.thinking } }
            { s with message := { s.message with content := s.message.content.set idx blk' } }
          | none => s
        else if d.type = "signature_delta" then
          match blk.thinkingContent with
          | some th =>
            let blk' := { blk with thinkingContent := some { th with signature := d.signature } }
            { s with message := { s.message with content := s.message.content.set idx blk' } }
          | none => s
        else s
    | _, _ => s
  else if event.type = "content_block_stop" then
    match event.index with
    | some idx =>
      match s.message.content[idx]? with
      | none => s
      | some blk =>
        match blk.toolUseContent with
        | some tub =>
          let buf := s.jsonBuffers idx
          if goStartsWith buf "\x7b" && goEndsWith buf "\x7d" then
            match goUnmarshalObj buf with
            | some inputObj =>
              let blk' :=
                { blk with toolUseContent := some { tub with input := some (.obj inputObj) } }
              { s with message := { s.message with content := s.message.content.set idx blk' } }
            | none => s
          else s
        | none => s
    | none => s
  else if event.type = "message_stop" then
    let m1 :=
      match event.stopReason with
      | some r => { s.message with stopReason := r }
      | none => s.message
    let m2 :=
      match event.usage with
      | some u => { m1 with usage := u }
      | none => m1
    { s with message := m2 }
  else
    s

/-! ### Decoding a `data:` payload into an `Event`

Models `json.Unmarshal(data, &event)` for the tagged structs of stream.go and
models.go: object keys are folded in order (so duplicate keys follow Go's
last-wins behaviour), unknown keys are ignored, a JSON `null` leaves the
target field unchanged, and a type mismatch is an error. -/

def isNull : JVal → Bool
  | .null => true
  | _ => false

def decStr : JVal → Option String
  | .str s => some s
  | _ => none

/-- Decimal value of a digit string. -/
def digitsToNat (acc : Nat) : List Char → Nat
  | [] => acc
  | c :: cs => digitsToNat (acc * 10 + (c.toNat - 48)) cs

/-- Go's conversion of a JSON number literal to `int`
(`strconv.ParseInt`): only a pure integer literal converts; a fraction or
exponent is an unmarshalling error. -/
def litToInt (lit : String) : Option Int :=
  match lit.toList with
  | '-' :: cs =>
    if cs ≠ [] ∧ cs.all Char.isDigit then some (-(digitsToNat 0 cs : Int)) else none
  | cs =>
    if cs ≠ [] ∧ cs.all Char.isDigit then some ((digitsToNat 0 cs : Nat) : Int) else none

/-- Decoding a JSON number into a Go `int`: the literal must be an integer. -/
def decInt : JVal → Option Int
  | .num lit => litToInt lit
  | _ => none

def decodeUsage (v : JVal) : Option Usage :=
  match v with
  | .obj fields =>
    fields.foldlM (fun (u : Usage) kv =>
      if isNull kv.2 then some u
      else if kv.1 = "input_tokens" then
        (decInt kv.2).map (fun n => { u with inputTokens := n })
      else if kv.1 = "output_tokens" then
        (decInt kv.2).map (fun n => { u with outputTokens := n })
      else some u) {}
  | _ => none

def decodeDelta (v : JVal) : Option Delta :=
  match v with
  | .obj fields =>
    fields.foldlM (fun (d : Delta) kv =>
      if isNull kv.2 then some d
      else if kv.1 = "type" then (decStr kv.2).map (fun s => { d with type := s })
      else if kv.1 = "text" then (decStr kv.2).map (fun s => { d with text := s })
      else if kv.1 = "partial_json" then (decStr kv.2).map (fun s => { d with partialJSON := s })
      else if kv.1 = "thinking" then (decStr kv.2).map (fun s => { d with thinking := s })
      else if kv.1 = "signature" then (decStr kv.2).map (fun s => { d with signature := s })
      else some d) {}
  | _ => none

def decodeImageSource (v : JVal) : Option ImageSource :=
  match v with
  | .obj fields =>
    fields.foldlM (fun (src : ImageSource) kv =>
      if isNull kv.2 then some src
      else if kv.1 = "type" then (decStr kv.2).map (fun s => { src with type := s })
      else if kv.1 = "media_type" then (decStr kv.2).map (fun s => { src with mediaType := s })
      else if kv.1 = "data" then (decStr kv.2).map (fun s => { src with data := s })
      else if kv.1 = "url" then (decStr kv.2).map (fun s => { src with url := s })
      else some src) { type := "", mediaType := "", data := "", url := "" }
  | _ => none

def decodeTextBlock (fields : List (String × JVal)) : Option TextBlock :=
  fields.foldlM (fun (b : TextBlock) kv =>
    if isNull kv.2 then some b
    else if kv.1 = "type" then (decStr kv.2).map (fun s => { b with type := s })
    else if kv.1 = "text" then (decStr kv.2).map (fun s => { b with text := s })
    else some b) { type := "", text := "" }

def decodeImageBlock (fields : List (String × JVal)) : Option ImageBlock :=
  fields.foldlM (fun (b : ImageBlock) kv =>
    if isNull kv.2 then some b
    else if kv.1 = "type" then (decStr kv.2).map (fun s => { b with type := s })
    else if kv.1 = "source" then (decodeImageSource kv.2).map (fun s => { b with source := s })
    else some b)
    { type := "", source := { type := "", mediaType := "", data := "", url := "" } }

/-- `ToolUseBlock`'s `input` is `interface{}`: any JSON value is kept as-is
(`null` leaves the nil interface in place). -/
def decodeToolUseBlock (fields : List (String × JVal)) : Option ToolUseBlock :=
  fields.foldlM (fun (b : ToolUseBlock) kv =>
    if kv.1 = "input" then
      match kv.2 with
      | .null => some b
      | v => some { b with input := some v }
    else if isNull kv.2 then some b
    else if kv.1 = "type" then (decStr kv.2).map (fun s => { b with type := s })
    else if kv.1 = "id" then (decStr kv.2).map (fun s => { b with id := s })
    else if kv.1 = "name" then (decStr kv.2).map (fun s => { b with name := s })
    else some b) { type := "", id := "", name := "", input := none }

def decodeToolResultBlock (fields : List (String × JVal)) : Option ToolResultBlock :=
  fields.foldlM (fun (b : ToolResultBlock) kv =>
    if isNull kv.2 then some b
    else if kv.1 = "type" then (decStr kv.2).map (fun s => { b with type := s })
    else if kv.1 = "tool_use_id" then (decStr kv.2).map (fun s => { b with toolUseID := s })
    else if kv.1 = "content" then (decStr kv.2).map (fun s => { b with content := s })
    else if kv.1 = "is_error" then
      match kv.2 with
      | .bool v => some { b with isError := v }
      | _ => none
    else some b) { type := "", toolUseID := "", content := "", isError := false }

def decodeThinkingBlock (fields : List (String × JVal)) : Option ThinkingBlock :=
  fields.foldlM (fun (b : ThinkingBlock) kv =>
    if isNull kv.2 then some b
    else if kv.1 = "type" then (decStr kv.2).map (fun s => { b with type := s })
    else if kv.1 = "thinking" then (decStr kv.2).map (fun s => { b with thinking := s })
    else if kv.1 = "signature" then (decStr kv.2).map (fun s => { b with signature := s })
    else some b) { type := "", thinking := "", signature := "" }

def decodeRedactedThinkingBlock (fields : List (String × JVal)) :
    Option RedactedThinkingBlock :=
  fields.foldlM (fun (b : RedactedThinkingBlock) kv =>
    if isNull kv.2 then some b
    else if kv.1 = "type" then (decStr kv.2).map (fun s => { b with type := s })
    else if kv.1 = "data" then (decStr kv.2).map (fun s => { b with data := s })
    else some b) { type := "", data := "" }

/-- `models.ContentBlock.UnmarshalJSON`: read the discriminator `type`,
then decode the matching variant; an unrecognized or absent type yields the
empty block with no error. -/
def decodeContentBlock (v : JVal) : Option ContentBlock :=
  match v with
  | .null => some emptyBlock
  | .obj fields =>
    let tyRes : Option String :=
      fields.foldlM (fun (t : String) kv =>
        if kv.1 = "type" then
          match kv.2 with
          | .null => some t
          | .str s => some s
          | _ => none
        else some t) ""
    match tyRes with
    | none => none
    | some ty =>
      if ty = "text" then
        (decodeTextBlock fields).map (fun b => { emptyBlock with textContent := some b })
      else if ty = "image" then
        (decodeImageBlock fields).map (fun b => { emptyBlock with imageContent := some b })
      else if ty = "tool_use" then
        (decodeToolUseBlock fields).map (fun b => { emptyBlock with toolUseContent := some b })
      else if ty = "tool_result" then
        (decodeToolResultBlock fields).map
          (fun b => { emptyBlock with toolResultContent := some b })
      else if ty = "thinking" then
        (decodeThinkingBlock fields).map (fun b => { emptyBlock with thinkingContent := some b })
      else if ty = "redacted_thinking" then
        (decodeRedactedThinkingBlock fields).map
          (fun b => { emptyBlock with redactedThinkingContent := some b })
      else some emptyBlock
  | _ => none

def decodeMessage (v : JVal) : Option Message :=
  match v with
  | .obj fields =>
    fields.foldlM (fun (m : Message) kv =>
      if isNull kv.2 then some m
      else if kv.1 = "id" then (decStr kv.2).map (fun s => { m with id := s })
      else if kv.1 = "role" then (decStr kv.2).map (fun s => { m with role := s })
      else if kv.1 = "content" then
        match kv.2 with
        | .arr elems => (elems.mapM decodeContentBlock).map (fun cs => { m with content := cs })
        | _ => none
      else if kv.1 = "model" then (decStr kv.2).map (fun s => { m with model := s })
      else if kv.1 = "stop_reason" then (decStr kv.2).map (fun s => { m with stopReason := s })
      else if kv.1 = "stop_sequence" then (decStr kv.2).map (fun s => { m with stopSequence := s })
      else if kv.1 = "usage" then (decodeUsage kv.2).map (fun u => { m with usage := u })
      else some m) emptyMessage
  | _ => none

/-- `json.Unmarshal(data, &event)` for `streaming.Event`.  A negative
`index` is rejected here (see the comment on `Event.index`). -/
def decodeEvent (v : JVal) : Option Event :=
  match v with
  | .null => some {}
  | .obj fields =>
    fields.foldlM (fun (e : Event) kv =>
      if isNull kv.2 then some e
      else if kv.1 = "type" then (decStr kv.2).map (fun s => { e with type := s })
      else if kv.1 = "message" then (decodeMessage kv.2).map (fun m => { e with message := some m })
      else if kv.1 = "stop_reason" then (decStr kv.2).map (fun s => { e with stopReason := some s })
      else if kv.1 = "index" then
        match decInt kv.2 with
        | some n => if n < 0 then none else some { e with index := some n.toNat }
        | none => none
      else if kv.1 = "content_block" then
        (decodeContentBlock kv.2).map (fun cb => { e with contentBlock := some cb })
      else if kv.1 = "delta" then (decodeDelta kv.2).map (fun d => { e with delta := some d })
      else if kv.1 = "usage" then (decodeUsage kv.2).map (fun u => { e with usage := some u })
      else some e) {}
  | _ => none

def unmarshalEvent (payload : List Char) : Option Event :=
  (goParseJson (String.mk payload)).bind decodeEvent

/-! ### The pull loop `MessageStream.Next` -/

/-- `bufio.Reader.ReadBytes('\n')` without the delimiter: the characters up
to the first newline plus the remainder, or `none` when the input runs out
before a newline is seen (in which case `Next` discards the partial data and
reports end of input or the transport error). -/
def takeLine : List Char → Option (List Char × List Char)
  | [] => none
  | c :: cs =>
    if c = '\n' then some ([], cs)
    else
      match takeLine cs with
      | none => none
      | some (l, r) => some (c :: l, r)

/-- The `data: ` prefix required of meaningful lines (note the space). -/
def dataPrefix : List Char := "data: ".toList

/-- `MessageStream.Next`, fuelled for the internal skip-and-retry recursion
over blank and non-`data: ` lines.  Every recursive call strictly consumes
input, so the fuel supplied by `next` is never exhausted. -/
def nextAux : Nat → MessageStream → Bool × MessageStream
  | 0, s => (false, s)
  | fuel + 1, s =>
    if s.err.isSome then (false, s)
    else
      match takeLine s.reader.data with
      | none =>
        if s.reader.trailingErr then
          (false, { s with reader := { s.reader with data := [] }, err := some .transport })
        else
          (false, { s with reader := { s.reader with data := [] } })
      | some (l, rest) =>
        let s1 : MessageStream := { s with reader := { s.reader with data := rest } }
        let line := trimSpace l
        if line = [] then nextAux fuel s1
        else if listStartsWith line dataPrefix then
          match unmarshalEvent (line.drop dataPrefix.length) with
          | none => (false, { s1 with err := some .decode })
          | some event => (true, updateMessage { s1 with currentEvent := some event } event)
        else nextAux fuel s1

/-- One advance of the stream: the `bool` is `Next`'s return value and the
stream is the mutated receiver. -/
def next (s : MessageStream) : Bool × MessageStream :=
  nextAux (s.reader.data.length + 1) s

/-- Pull events until `Next` reports no more (fuelled; `Next` returning
`false` always terminates the loop, so any fuel at least the number of
events suffices). -/
def runStream : Nat → MessageStream → MessageStream
  | 0, s => s
  | fuel + 1, s =>
    match next s with
    | (true, s') => runStream fuel s'
    | (false, s') => s'

/-! ### Vocabulary for stating the claims -/

/-- Fold a list of already-decoded events into the accumulator, as the
successive `updateMessage` calls of a pulled stream do. -/
def processEvents (s : MessageStream) (es : List Event) : MessageStream :=
  es.foldl updateMessage s

/-- A fresh accumulator state, as right after `NewMessageStream`. -/
def initialStream : MessageStream :=
  newMessageStream ""

/-- A `content_block_start` event at index `i` carrying snapshot `cb`. -/
def startEvt (i : Nat) (cb : ContentBlock) : Event :=
  { type := "content_block_start", index := some i, contentBlock := some cb }

/-- A `content_block_delta` event at index `i` carrying delta `d`. -/
def deltaEvt (i : Nat) (d : Delta) : Event :=
  { type := "content_block_delta", index := some i, delta := some d }

/-- A `text_delta` fragment for index `i`. -/
def textDeltaEvt (i : Nat) (t : String) : Event :=
  deltaEvt i { type := "text_delta", text := t }

/-- An `input_json_delta` fragment for index `i`. -/
def jsonDeltaEvt (i : Nat) (f : String) : Event :=
  deltaEvt i { type := "input_json_delta", partialJSON := f }

/-- A `thinking_delta` fragment for index `i`. -/
def thinkingDeltaEvt (i : Nat) (t : String) : Event :=
  deltaEvt i { type := "thinking_delta", thinking := t }

/-- A `signature_delta` fragment for index `i`. -/
def signatureDeltaEvt (i : Nat) (sig : String) : Event :=
  deltaEvt i { type := "signature_delta", signature := sig }

/-- A `content_block_stop` event for index `i`. -/
def stopEvt (i : Nat) : Event :=
  { type := "content_block_stop", index := some i }

/-- A text-variant snapshot block, as sent by `content_block_start` for text
blocks (`ty` is the block's `type` string, `"text"` on the wire). -/
def textSnap (ty t : String) : ContentBlock :=
  { emptyBlock with textContent := some { type := ty, text := t } }

/-- A tool-use-variant snapshot block. -/
def toolSnap (tub : ToolUseBlock) : ContentBlock :=
  { emptyBlock with toolUseContent := some tub }

/-- A thinking-variant snapshot block. -/
def thinkSnap (tb : ThinkingBlock) : ContentBlock :=
  { emptyBlock with thinkingContent := some tb }

/-- Whether an event is a content-block event addressed at index `i` — the
only events whose processing can read or write the block at `i` or its JSON
buffer. -/
def touches (e : Event) (i : Nat) : Bool :=
  (e.type == "content_block_start" || e.type == "content_block_delta" ||
    e.type == "content_block_stop") && e.index == some i

/-- The accumulated text of the block at index `i`, when that block exists
and is a text block. -/
def textAt (m : Message) (i : Nat) : Option String :=
  m.content[i]?.bind (fun b => b.textContent.map TextBlock.text)

/-- The signature of the block at index `i`, when that block exists and is a
thinking block. -/
def signatureAt (m : Message) (i : Nat) : Option String :=
  m.content[i]?.bind (fun b => b.thinkingContent.map ThinkingBlock.signature)

/-- The structured input of the block at index `i`, when that block exists
and is a tool-use block (`some none` = the block exists but its input is the
nil interface). -/
def toolInputAt (m : Message) (i : Nat) : Option (Option JVal) :=
  m.content[i]?.bind (fun b => b.toolUseContent.map ToolUseBlock.input)

/-- Concatenation of a list of string fragments, in order. -/
def strConcat : List String → String
  | [] => ""
  | f :: fs => f ++ strConcat fs

/-- The text fragments of the `text_delta` members of a delta run, in
order. -/
def textFragsOf : List Delta → List String
  | [] => []
  | d :: ds => if d.type = "text_delta" then d.text :: textFragsOf ds else textFragsOf ds

/-- The JSON fragments of the `input_json_delta` members of a delta run, in
order. -/
def jsonFragsOf : List Delta → List String
  | [] => []
  | d :: ds =>
    if d.type = "input_json_delta" then d.partialJSON :: jsonFragsOf ds else jsonFragsOf ds

/-- The signature values of the `signature_delta` members of a delta run, in
order. -/
def sigWritesOf : List Delta → List String
  | [] => []
  | d :: ds => if d.type = "signature_delta" then d.signature :: sigWritesOf ds else sigWritesOf ds

/-- The signature left by a run of deltas applied to a thinking block whose
current signature is `sig`: each `signature_delta` replaces it wholesale,
every other delta kind leaves it alone. -/
def lastSigD (sig : String) : List Delta → String
  | [] => sig
  | d :: ds => if d.type = "signature_delta" then lastSigD d.signature ds else lastSigD sig ds

/-! ### Concrete scenario inputs from the spec's testable properties -/

/-- The six event payloads of the end-to-end text scenario. -/
def c4Payloads : List String :=
  ["\x7b\"type\":\"message_start\",\"message\":\x7b\"id\":\"m1\",\"role\":\"assistant\"\x7d\x7d",
   "\x7b\"type\":\"content_block_start\",\"index\":0,\"content_block\":\x7b\"type\":\"text\",\"text\":\"\"\x7d\x7d",
   "\x7b\"type\":\"content_block_delta\",\"index\":0,\"delta\":\x7b\"type\":\"text_delta\",\"text\":\"Hel\"\x7d\x7d",
   "\x7b\"type\":\"content_block_delta\",\"index\":0,\"delta\":\x7b\"type\":\"text_delta\",\"text\":\"lo\"\x7d\x7d",
   "\x7b\"type\":\"content_block_stop\",\"index\":0\x7d",
   "\x7b\"type\":\"message_stop\",\"stop_reason\":\"end_turn\",\"usage\":\x7b\"input_tokens\":5,\"output_tokens\":2\x7d\x7d"]

/-- The scenario lines exactly as the spec writes them: `data:` with no
space before the payload. -/
def c4LinesExact : String :=
  String.join (c4Payloads.map (fun p => "data:" ++ p ++ "\n"))

/-- The same scenario in the line format stream.go actually recognizes:
`data: ` with a space. -/
def c4LinesSpaced : String :=
  String.join (c4Payloads.map (fun p => "data: " ++ p ++ "\n"))

/-- A valid `message_start` line followed by the malformed payload line,
in the recognized `data: ` format. -/
def c5Input : String :=
  "data: \x7b\"type\":\"message_start\",\"message\":\x7b\"id\":\"m1\",\"role\":\"assistant\"\x7d\x7d\n"
    ++ "data: \x7bnot json\n"

/-! ## Theorems -/

/-- Growing with placeholders makes the target index addressable. -/
theorem lt_length_growContent (l : List ContentBlock) (i : Nat) :
    i < (growContent l i).length := by
  simp only [growContent, List.length_append, List.length_replicate]
  omega

/-- Growing with placeholders never shrinks the sequence. -/
theorem length_le_growContent (l : List ContentBlock) (i : Nat) :
    l.length ≤ (growContent l i).length := by
  simp only [growContent, List.length_append, List.length_replicate]
  omega

/-- Placeholder growth preserves the entries already present. -/
theorem growContent_getElem_of_lt (l : List ContentBlock) (i j : Nat)
    (h : j < l.length) : (growContent l i)[j]? = l[j]? := by
  simp only [growContent]
  exact List.getElem?_append_left h

/-- No event ever shrinks the content sequence. -/
theorem updateMessage_length_mono (s : MessageStream) (e : Event) :
    s.message.content.length ≤ (updateMessage s e).message.content.length := by
  unfold updateMessage
  repeat' split
  all_goals simp [List.length_set, growContent]
  all_goals (repeat' split)
  all_goals simp [List.length_set]

/-- Frame property of the assembler: an event that does not target index `i`
leaves the block already present at `i` and `i`'s JSON accumulation buffer
untouched. -/
theorem updateMessage_frame (s : MessageStream) (e : Event) (i : Nat)
    (h : touches e i = false) (hi : i < s.message.content.length) :
    (updateMessage s e).message.content[i]? = s.message.content[i]? ∧
      (updateMessage s e).jsonBuffers i = s.jsonBuffers i := by
  by_cases h1 : e.type = "message_start"
  · simp only [updateMessage, h1]
    cases e.message <;> simp
  by_cases h2 : e.type = "content_block_start"
  · have hne : ¬ e.index = some i := by
      intro hbad
      simp [touches, h2, hbad] at h
    simp only [updateMessage, h2, String.reduceEq, reduceIte]
    cases e.contentBlock with
    | none => simp
    | some cb =>
      cases hIdx : e.index with
      | none => simp
      | some idx =>
        rw [hIdx] at hne
        have hne2 : idx ≠ i := fun hh => hne (by rw [hh])
        have hne3 : ¬ i = idx := fun hh => hne2 hh.symm
        simp only [reduceIte, Option.isSome_some]
        constructor
        · rw [List.getElem?_set_ne hne2, growContent_getElem_of_lt _ _ _ hi]
        · cases cb.toolUseContent.isSome <;> simp [setBuf, hne3]
  by_cases h3 : e.type = "content_block_delta"
  · have hne : ¬ e.index = some i := by
      intro hbad
      simp [touches, h3, hbad] at h
    simp only [updateMessage, h3, String.reduceEq, reduceIte]
    cases e.delta with
    | none => simp
    | some d =>
      cases hIdx : e.index with
      | none => simp
      | some idx =>
        rw [hIdx] at hne
        have hne2 : idx ≠ i := fun hh => hne (by rw [hh])
        have hne3 : ¬ i = idx := fun hh => hne2 hh.symm
        simp only [reduceIte]
        cases hblk : s.message.content[idx]? with
        | none => simp
        | some blk =>
          simp only []
          repeat' split
          all_goals simp [List.getElem?_set_ne hne2, setBuf, hne3]
  by_cases h4 : e.type = "content_block_stop"
  · have hne : ¬ e.index = some i := by
      intro hbad
      simp [touches, h4, hbad] at h
    simp only [updateMessage, h4, String.reduceEq, reduceIte]
    cases hIdx : e.index with
    | none => simp
    | some idx =>
      rw [hIdx] at hne
      have hne2 : idx ≠ i := fun hh => hne (by rw [hh])
      simp only [reduceIte]
      cases hblk : s.message.content[idx]? with
      | none => simp
      | some blk =>
        simp only []
        repeat' split
        all_goals simp [List.getElem?_set_ne hne2, setBuf]
  · simp only [updateMessage, h1, h2, h3, h4]
    by_cases h5 : e.type = "message_stop"
    · simp only [h5, reduceIte]
      cases e.stopReason <;> cases e.usage <;> simp
    · simp [h5]

/-- Processing a list of events none of which targets index `i` preserves the
block at `i` and its buffer. -/
theorem processEvents_frame (i : Nat) (es : List Event) :
    ∀ s : MessageStream, es.filter (fun e => touches e i) = [] →
      i < s.message.content.length →
      (processEvents s es).message.content[i]? = s.message.content[i]? ∧
        i < (processEvents s es).message.content.length ∧
        (processEvents s es).jsonBuffers i = s.jsonBuffers i := by
  induction es with
  | nil =>
    intro s _ hi
    exact ⟨rfl, hi, rfl⟩
  | cons e es ih =>
    intro s hf hi
    cases ht : touches e i with
    | true => simp [List.filter_cons, ht] at hf
    | false =>
      simp only [List.filter_cons, ht, Bool.false_eq_true, if_false] at hf
      have hi' : i < (updateMessage s e).message.content.length :=
        Nat.lt_of_lt_of_le hi (updateMessage_length_mono s e)
      obtain ⟨hg, hb⟩ := updateMessage_frame s e i ht hi
      obtain ⟨ihg, ihl, ihb⟩ := ih (updateMessage s e) hf hi'
      exact ⟨ihg.trans hg, ihl, ihb.trans hb⟩

/-- Effect of `ContentBlockStart`: the snapshot is stored at its index, and a
tool-use snapshot resets that index's JSON buffer. -/
theorem start_step (s : MessageStream) (i : Nat) (cb : ContentBlock) :
    (updateMessage s (startEvt i cb)).message.content[i]? = some cb ∧
      (cb.toolUseContent.isSome = true →
        (updateMessage s (startEvt i cb)).jsonBuffers i = "") := by
  constructor
  · simp only [updateMessage, startEvt, String.reduceEq, reduceIte]
    exact List.getElem?_set_eq_of_lt cb (lt_length_growContent _ i)
  · intro hsome
    simp only [updateMessage, startEvt, String.reduceEq, reduceIte, hsome]
    simp [setBuf]

/-- Effect of a delta with sub-kind `text_delta` on a stored text block: the
fragment is appended to the block's text; nothing else changes. -/
theorem textDelta_step (s : MessageStream) (i : Nat) (d : Delta) (blk : ContentBlock)
    (tb : TextBlock) (hd : d.type = "text_delta")
    (hg : s.message.content[i]? = some blk)
    (htb : blk.textContent = some tb) :
    (updateMessage s (deltaEvt i d)).message.content[i]? =
        some { blk with textContent := some { tb with text := tb.text ++ d.text } } ∧
      (updateMessage s (deltaEvt i d)).jsonBuffers = s.jsonBuffers := by
  obtain ⟨hlt, -⟩ := List.getElem?_eq_some_iff.mp hg
  constructor
  · simp only [updateMessage, deltaEvt, String.reduceEq, reduceIte, hd, hg, htb]
    exact List.getElem?_set_eq_of_lt _ hlt
  · simp only [updateMessage, deltaEvt, String.reduceEq, reduceIte, hd, hg, htb]

/-- Effect of a delta with sub-kind `thinking_delta` on a stored thinking
block. -/
theorem thinkingDelta_step (s : MessageStream) (i : Nat) (d : Delta) (blk : ContentBlock)
    (th : ThinkingBlock) (hd : d.type = "thinking_delta")
    (hg : s.message.content[i]? = some blk)
    (hth : blk.thinkingContent = some th) :
    (updateMessage s (deltaEvt i d)).message.content[i]? =
        some { blk with thinkingContent := some { th with thinking := th.thinking ++ d.thinking } } ∧
      (updateMessage s (deltaEvt i d)).jsonBuffers = s.jsonBuffers := by
  obtain ⟨hlt, -⟩ := List.getElem?_eq_some_iff.mp hg
  constructor
  · simp only [updateMessage, deltaEvt, String.reduceEq, reduceIte, hd, hg, hth]
    exact List.getElem?_set_eq_of_lt _ hlt
  · simp only [updateMessage, deltaEvt, String.reduceEq, reduceIte, hd, hg, hth]

/-- Effect of a delta with sub-kind `signature_delta` on a stored thinking
block: the signature is replaced, not appended to. -/
theorem signatureDelta_step (s : MessageStream) (i : Nat) (d : Delta) (blk : ContentBlock)
    (th : ThinkingBlock) (hd : d.type = "signature_delta")
    (hg : s.message.content[i]? = some blk)
    (hth : blk.thinkingContent = some th) :
    (updateMessage s (deltaEvt i d)).message.content[i]? =
        some { blk with thinkingContent := some { th with signature := d.signature } } ∧
      (updateMessage s (deltaEvt i d)).jsonBuffers = s.jsonBuffers := by
  obtain ⟨hlt, -⟩ := List.getElem?_eq_some_iff.mp hg
  constructor
  · simp only [updateMessage, deltaEvt, String.reduceEq, reduceIte, hd, hg, hth]
    exact List.getElem?_set_eq_of_lt _ hlt
  · simp only [updateMessage, deltaEvt, String.reduceEq, reduceIte, hd, hg, hth]

/-- Effect of a delta with sub-kind `input_json_delta` on a stored tool-use
block: the fragment is appended to the index's JSON buffer and the block
stays a tool-use block (its input may or may not be re-parsed, depending on
the heuristic). -/
theorem jsonDelta_step (s : MessageStream) (i : Nat) (d : Delta) (blk : ContentBlock)
    (tub : ToolUseBlock) (hd : d.type = "input_json_delta")
    (hg : s.message.content[i]? = some blk)
    (htu : blk.toolUseContent = some tub) :
    ∃ blk' tub',
      (updateMessage s (deltaEvt i d)).message.content[i]? = some blk' ∧
        blk'.toolUseContent = some tub' ∧
        blk'.textContent = blk.textContent ∧
        blk'.thinkingContent = blk.thinkingContent ∧
        (updateMessage s (deltaEvt i d)).jsonBuffers i = s.jsonBuffers i ++ d.partialJSON := by
  obtain ⟨hlt, -⟩ := List.getElem?_eq_some_iff.mp hg
  simp only [updateMessage, deltaEvt, String.reduceEq, reduceIte, hd, hg, htu]
  split
  · split
    · exact ⟨_, _, List.getElem?_set_eq_of_lt _ hlt, rfl, rfl, rfl, by simp [setBuf]⟩
    · exact ⟨blk, tub, hg, htu, rfl, rfl, by simp [setBuf]⟩
  · exact ⟨blk, tub, hg, htu, rfl, rfl, by simp [setBuf]⟩

/-- A delta whose sub-kind does not match the variant of the stored block is
a no-op on the entire stream state (tolerant merge). -/
theorem delta_step_noop (s : MessageStream) (i : Nat) (d : Delta) (blk : ContentBlock)
    (hg : s.message.content[i]? = some blk)
    (h1 : d.type = "text_delta" → blk.textContent = none)
    (h2 : d.type = "input_json_delta" → blk.toolUseContent = none)
    (h3 : d.type = "thinking_delta" → blk.thinkingContent = none)
    (h4 : d.type = "signature_delta" → blk.thinkingContent = none) :
    updateMessage s (deltaEvt i d) = s := by
  simp only [updateMessage, deltaEvt, String.reduceEq, reduceIte, hg]
  by_cases ha : d.type = "text_delta"
  · simp [ha, h1 ha]
  · by_cases hb : d.type = "input_json_delta"
    · simp [ha, hb, h2 hb]
    · by_cases hc : d.type = "thinking_delta"
      · simp [ha, hb, hc, h3 hc]
      · by_cases hdd : d.type = "signature_delta"
        · simp [ha, hb, hc, hdd, h4 hdd]
        · simp [ha, hb, hc, hdd]

/-- `ContentBlockStop` at an index whose block is not a tool-use block is a
no-op. -/
theorem stop_step_nonTool (s : MessageStream) (i : Nat) (blk : ContentBlock)
    (hg : s.message.content[i]? = some blk) (htu : blk.toolUseContent = none) :
    updateMessage s (stopEvt i) = s := by
  simp only [updateMessage, stopEvt, String.reduceEq, reduceIte, hg, htu]

/-- `ContentBlockStop` at a tool-use index whose buffer passes the brace
heuristic and parses installs the parsed object as the block's input. -/
theorem stop_step_tool_parse (s : MessageStream) (i : Nat) (blk : ContentBlock)
    (tub : ToolUseBlock) (flds : List (String × JVal))
    (hg : s.message.content[i]? = some blk) (htu : blk.toolUseContent = some tub)
    (hpre : goStartsWith (s.jsonBuffers i) "\x7b" = true)
    (hsuf : goEndsWith (s.jsonBuffers i) "\x7d" = true)
    (hparse : goUnmarshalObj (s.jsonBuffers i) = some flds) :
    toolInputAt (updateMessage s (stopEvt i)).message i = some (some (.obj flds)) := by
  obtain ⟨hlt, -⟩ := List.getElem?_eq_some_iff.mp hg
  simp only [updateMessage, stopEvt, String.reduceEq, reduceIte, hg, htu, hpre, hsuf,
    Bool.and_self, hparse]
  simp [toolInputAt, List.getElem?_set_eq_of_lt _ hlt]

/-- `ReadBytes('\n')` finds no line exactly when the remaining input holds no
newline. -/
theorem takeLine_eq_none {cs : List Char} (h : '\n' ∉ cs) : takeLine cs = none := by
  induction cs with
  | nil => rfl
  | cons c cs ih =>
    rw [List.mem_cons, not_or] at h
    unfold takeLine
    rw [if_neg (fun hc => h.1 hc.symm), ih h.2]

/-- C7: processing a `ContentBlockStart` at index 5 on a fresh accumulator
(no index ever started) produces exactly six blocks: five empty placeholders
followed by the event's snapshot, so the content sequence has length 6 (≥ 6)
and index 5 holds the snapshot. -/
theorem start_at_five_gap_fills (cb : ContentBlock) :
    (updateMessage initialStream (startEvt 5 cb)).message.content =
        List.replicate 5 emptyBlock ++ [cb] ∧
      (updateMessage initialStream (startEvt 5 cb)).message.content.length = 6 ∧
      (updateMessage initialStream (startEvt 5 cb)).message.content[5]? = some cb :=
  ⟨rfl, rfl, rfl⟩

/-- C3 (counterexample): a `ContentBlockDelta` at an index that was never
started does not grow the content sequence — after a delta at index 0 on an
empty accumulator the sequence is still empty, so index 0 is not addressable,
contrary to the claim that deltas gap-fill the same way `ContentBlockStart`
does. -/
theorem delta_before_start_does_not_grow :
    (updateMessage initialStream (textDeltaEvt 0 "x")).message.content.length = 0 ∧
      updateMessage initialStream (textDeltaEvt 0 "x") = initialStream :=
  ⟨rfl, rfl⟩

/-- C3 (amended): a `ContentBlockDelta` whose index is at or beyond the
current content-sequence length does not fail and does not grow the
sequence; the event is silently discarded and the whole stream state is left
unchanged. -/
theorem delta_out_of_range_discarded (s : MessageStream) (i : Nat) (d : Delta)
    (h : s.message.content.length ≤ i) :
    updateMessage s (deltaEvt i d) = s := by
  have hnone : s.message.content[i]? = none := List.getElem?_eq_none_iff.mpr h
  simp [updateMessage, deltaEvt, hnone]

/-- Witness for `delta_out_of_range_discarded` at a concrete input. -/
theorem delta_out_of_range_discarded_witness :
    updateMessage initialStream (deltaEvt 2 { type := "text_delta", text := "x" }) =
      initialStream :=
  delta_out_of_range_discarded initialStream 2 { type := "text_delta", text := "x" }
    (by decide)

/-- C8: once a transport or decode error is recorded, an advance call
returns `false` with the stream state — reader position, accumulator, and
the recorded error — completely unchanged; hence every subsequent advance
does the same and the error stays retrievable via `Err`. -/
theorem next_after_error (s : MessageStream) (e : StreamErr) (h : s.err = some e) :
    next s = (false, s) ∧ (next s).2.err = some e := by
  have h1 : next s = (false, s) := by
    simp [next, nextAux, h]
  exact ⟨h1, by rw [h1]; exact h⟩

/-- Witness for `next_after_error` at a concrete errored stream. -/
theorem next_after_error_witness :
    next { initialStream with err := some StreamErr.decode } =
        (false, { initialStream with err := some StreamErr.decode }) ∧
      (next { initialStream with err := some StreamErr.decode }).2.err =
        some StreamErr.decode :=
  next_after_error { initialStream with err := some StreamErr.decode } StreamErr.decode rfl

/-- C9: when the remaining input holds no newline (an unterminated final
line) and the reader then reports clean end of input, the advance call
returns `false`, records no error, and discards the partial line: the
accumulator, current event and error field are all unchanged and the
unterminated data is consumed without being delivered. -/
theorem unterminated_final_line_discarded (s : MessageStream)
    (h1 : s.err = none) (h2 : '\n' ∉ s.reader.data) (h3 : s.reader.trailingErr = false) :
    next s = (false, { s with reader := { s.reader with data := [] } }) := by
  simp [next, nextAux, h1, takeLine_eq_none h2, h3]

/-- Witness for `unterminated_final_line_discarded`: a well-formed `data: `
event line with no trailing newline is dropped, with no error and no event
folded. -/
theorem unterminated_final_line_discarded_witness :
    next (newMessageStream "data: \x7b\"type\":\"message_stop\",\"stop_reason\":\"end_turn\"\x7d") =
      (false,
        { newMessageStream "data: \x7b\"type\":\"message_stop\",\"stop_reason\":\"end_turn\"\x7d" with
            reader :=
              { (newMessageStream
                  "data: \x7b\"type\":\"message_stop\",\"stop_reason\":\"end_turn\"\x7d").reader with
                  data := [] } }) :=
  unterminated_final_line_discarded
    (newMessageStream "data: \x7b\"type\":\"message_stop\",\"stop_reason\":\"end_turn\"\x7d")
    rfl (by decide) rfl

/-- C4 (counterexample): feeding the six scenario lines exactly as written —
`data:` with no space — folds nothing at all: every line fails the
`data: ` prefix test and is skipped, so the final message is still the zero
message (in particular its id is `""`, not `"m1"`). -/
theorem exact_scenario_lines_fold_nothing :
    (runStream 20 (newMessageStream c4LinesExact)).message = emptyMessage ∧
      (runStream 20 (newMessageStream c4LinesExact)).err = none ∧
      (runStream 20 (newMessageStream c4LinesExact)).message.id ≠ "m1" :=
  ⟨rfl, rfl, by decide⟩

/-- C4 (amended): the same six payloads delivered in the line format the
decoder recognizes (`data: ` with a space) produce the claimed final
message: id `"m1"`, role assistant, one text block reading `"Hello"`, stop
reason `end_turn`, usage 5 input / 2 output tokens. -/
theorem spaced_scenario_lines_yield_message :
    (runStream 20 (newMessageStream c4LinesSpaced)).message =
        { id := "m1", role := "assistant", content := [textSnap "text" "Hello"],
          model := "", stopReason := "end_turn", stopSequence := "",
          usage := { inputTokens := 5, outputTokens := 2 } } ∧
      (runStream 20 (newMessageStream c4LinesSpaced)).err = none :=
  ⟨rfl, rfl⟩

/-- C5 (counterexample): advancing over the line `data:{not json` exactly as
the claim writes it does not surface a decode error at all: the line lacks
the required `data: ` prefix, is skipped, and iteration ends cleanly at end
of input with no error recorded. -/
theorem malformed_line_without_space_is_skipped :
    (next (newMessageStream "data:\x7bnot json\n")).1 = false ∧
      (next (newMessageStream "data:\x7bnot json\n")).2.err = none :=
  ⟨rfl, rfl⟩

/-- C5 (amended): with the recognized `data: ` prefix, the malformed payload
`{not json` surfaces a decode error on that advance call, which returns
`false`; the error is retrievable and the accumulator retains exactly what
the prior valid `message_start` event folded. -/
theorem malformed_spaced_line_surfaces_decode_error :
    (next (newMessageStream c5Input)).1 = true ∧
      (next (newMessageStream c5Input)).2.message.id = "m1" ∧
      (next (next (newMessageStream c5Input)).2).1 = false ∧
      (next (next (newMessageStream c5Input)).2).2.err = some StreamErr.decode ∧
      (next (next (newMessageStream c5Input)).2).2.message =
        (next (newMessageStream c5Input)).2.message :=
  ⟨rfl, rfl, rfl, rfl, rfl⟩

/-- Folding a run of events whose `i`-targeted members are the deltas `ds`
(of any sub-kinds) into a state holding a pure text block at `i` appends the
concatenation of the run's `text_delta` fragments to the block's text;
mismatched delta kinds are tolerated as no-ops. -/
theorem textDelta_runs (i : Nat) :
    ∀ (mid : List Event) (ds : List Delta) (s : MessageStream) (blk : ContentBlock)
      (tb : TextBlock),
      mid.filter (fun e => touches e i) = ds.map (deltaEvt i) →
      s.message.content[i]? = some blk →
      blk.textContent = some tb →
      blk.toolUseContent = none →
      blk.thinkingContent = none →
      ∃ blk' tb', (processEvents s mid).message.content[i]? = some blk' ∧
        blk'.textContent = some tb' ∧
        blk'.toolUseContent = none ∧
        tb'.text = tb.text ++ strConcat (textFragsOf ds) := by
  intro mid
  induction mid with
  | nil =>
    intro ds s blk tb hf hg htb htu hth
    cases ds with
    | nil => exact ⟨blk, tb, hg, htb, htu, by simp [textFragsOf, strConcat]⟩
    | cons d ds' => simp at hf
  | cons e mid ih =>
    intro ds s blk tb hf hg htb htu hth
    cases ht : touches e i with
    | false =>
      simp only [List.filter_cons, ht, Bool.false_eq_true, if_false] at hf
      obtain ⟨hlt, -⟩ := List.getElem?_eq_some_iff.mp hg
      obtain ⟨hgf, -⟩ := updateMessage_frame s e i ht hlt
      exact ih ds (updateMessage s e) blk tb hf (hgf.trans hg) htb htu hth
    | true =>
      simp only [List.filter_cons, ht, reduceIte] at hf
      cases ds with
      | nil => simp at hf
      | cons d ds' =>
        simp only [List.map_cons, List.cons.injEq] at hf
        obtain ⟨he, hf'⟩ := hf
        subst he
        by_cases hd : d.type = "text_delta"
        · obtain ⟨hstep, -⟩ := textDelta_step s i d blk tb hd hg htb
          obtain ⟨blk', tb', h1, h2, h3, h4⟩ :=
            ih ds' (updateMessage s (deltaEvt i d)) _ _ hf' hstep rfl htu hth
          refine ⟨blk', tb', h1, h2, h3, ?_⟩
          rw [h4]
          simp [textFragsOf, hd, strConcat, String.append_assoc]
        · have hnoop := delta_step_noop s i d blk hg
            (fun hh => absurd hh hd) (fun _ => htu) (fun _ => hth) (fun _ => hth)
          obtain ⟨blk', tb', h1, h2, h3, h4⟩ := ih ds' s blk tb hf' hg htb htu hth
          refine ⟨blk', tb', ?_, h2, h3, ?_⟩
          · show (processEvents (updateMessage s (deltaEvt i d)) mid).message.content[i]? =
              some blk'
            rw [hnoop]
            exact h1
          · rw [h4]
            simp [textFragsOf, hd]

/-- Folding a run of events whose `i`-targeted members are the deltas `ds`
into a state holding a pure thinking block at `i` leaves the block with the
signature computed by `lastSigD` (replace on `signature_delta`, keep
otherwise); mismatched delta kinds are tolerated as no-ops. -/
theorem think_runs (i : Nat) :
    ∀ (mid : List Event) (ds : List Delta) (s : MessageStream) (blk : ContentBlock)
      (th : ThinkingBlock),
      mid.filter (fun e => touches e i) = ds.map (deltaEvt i) →
      s.message.content[i]? = some blk →
      blk.thinkingContent = some th →
      blk.textContent = none →
      blk.toolUseContent = none →
      ∃ blk' th', (processEvents s mid).message.content[i]? = some blk' ∧
        blk'.thinkingContent = some th' ∧
        blk'.toolUseContent = none ∧
        th'.signature = lastSigD th.signature ds := by
  intro mid
  induction mid with
  | nil =>
    intro ds s blk th hf hg hth htx htu
    cases ds with
    | nil => exact ⟨blk, th, hg, hth, htu, rfl⟩
    | cons d ds' => simp at hf
  | cons e mid ih =>
    intro ds s blk th hf hg hth htx htu
    cases ht : touches e i with
    | false =>
      simp only [List.filter_cons, ht, Bool.false_eq_true, if_false] at hf
      obtain ⟨hlt, -⟩ := List.getElem?_eq_some_iff.mp hg
      obtain ⟨hgf, -⟩ := updateMessage_frame s e i ht hlt
      exact ih ds (updateMessage s e) blk th hf (hgf.trans hg) hth htx htu
    | true =>
      simp only [List.filter_cons, ht, reduceIte] at hf
      cases ds with
      | nil => simp at hf
      | cons d ds' =>
        simp only [List.map_cons, List.cons.injEq] at hf
        obtain ⟨he, hf'⟩ := hf
        subst he
        by_cases hd1 : d.type = "thinking_delta"
        · obtain ⟨hstep, -⟩ := thinkingDelta_step s i d blk th hd1 hg hth
          obtain ⟨blk', th', h1, h2, h3, h4⟩ :=
            ih ds' (updateMessage s (deltaEvt i d)) _ _ hf' hstep rfl htx htu
          refine ⟨blk', th', h1, h2, h3, ?_⟩
          rw [h4]
          have : ¬ d.type = "signature_delta" := by rw [hd1]; decide
          simp [lastSigD, this]
        · by_cases hd2 : d.type = "signature_delta"
          · obtain ⟨hstep, -⟩ := signatureDelta_step s i d blk th hd2 hg hth
            obtain ⟨blk', th', h1, h2, h3, h4⟩ :=
              ih ds' (updateMessage s (deltaEvt i d)) _ _ hf' hstep rfl htx htu
            refine ⟨blk', th', h1, h2, h3, ?_⟩
            rw [h4]
            simp [lastSigD, hd2]
          · have hnoop := delta_step_noop s i d blk hg
              (fun _ => htx) (fun _ => htu) (fun hh => absurd hh hd1) (fun hh => absurd hh hd2)
            obtain ⟨blk', th', h1, h2, h3, h4⟩ := ih ds' s blk th hf' hg hth htx htu
            refine ⟨blk', th', ?_, h2, h3, ?_⟩
            · show (processEvents (updateMessage s (deltaEvt i d)) mid).message.content[i]? =
                some blk'
              rw [hnoop]
              exact h1
            · rw [h4]
              simp [lastSigD, hd2]

/-- Folding a run of events whose `i`-targeted members are the deltas `ds`
into a state holding a pure tool-use block at `i` appends the concatenation
of the run's `input_json_delta` fragments to `i`'s JSON buffer and keeps the
block a tool-use block; mismatched delta kinds are tolerated as no-ops. -/
theorem jsonDelta_runs (i : Nat) :
    ∀ (mid : List Event) (ds : List Delta) (s : MessageStream) (blk : ContentBlock)
      (tub : ToolUseBlock),
      mid.filter (fun e => touches e i) = ds.map (deltaEvt i) →
      s.message.content[i]? = some blk →
      blk.toolUseContent = some tub →
      blk.textContent = none →
      blk.thinkingContent = none →
      ∃ blk' tub', (processEvents s mid).message.content[i]? = some blk' ∧
        blk'.toolUseContent = some tub' ∧
        (processEvents s mid).jsonBuffers i =
          s.jsonBuffers i ++ strConcat (jsonFragsOf ds) := by
  intro mid
  induction mid with
  | nil =>
    intro ds s blk tub hf hg htu htx hth
    cases ds with
    | nil => exact ⟨blk, tub, hg, htu, by simp [processEvents, jsonFragsOf, strConcat]⟩
    | cons d ds' => simp at hf
  | cons e mid ih =>
    intro ds s blk tub hf hg htu htx hth
    cases ht : touches e i with
    | false =>
      simp only [List.filter_cons, ht, Bool.false_eq_true, if_false] at hf
      obtain ⟨hlt, -⟩ := List.getElem?_eq_some_iff.mp hg
      obtain ⟨hgf, hbf⟩ := updateMessage_frame s e i ht hlt
      obtain ⟨blk', tub', h1, h2, h3⟩ :=
        ih ds (updateMessage s e) blk tub hf (hgf.trans hg) htu htx hth
      refine ⟨blk', tub', h1, h2, ?_⟩
      show (processEvents (updateMessage s e) mid).jsonBuffers i = _
      rw [h3, hbf]
    | true =>
      simp only [List.filter_cons, ht, reduceIte] at hf
      cases ds with
      | nil => simp at hf
      | cons d ds' =>
        simp only [List.map_cons, List.cons.injEq] at hf
        obtain ⟨he, hf'⟩ := hf
        subst he
        by_cases hd : d.type = "input_json_delta"
        · obtain ⟨blkM, tubM, hstep, htuM, htxM, hthM, hbufM⟩ :=
            jsonDelta_step s i d blk tub hd hg htu
          obtain ⟨blk', tub', h1, h2, h3⟩ :=
            ih ds' (updateMessage s (deltaEvt i d)) blkM tubM hf' hstep htuM
              (htxM.trans htx) (hthM.trans hth)
          refine ⟨blk', tub', h1, h2, ?_⟩
          show (processEvents (updateMessage s (deltaEvt i d)) mid).jsonBuffers i = _
          rw [h3, hbufM]
          simp [jsonFragsOf, hd, strConcat, String.append_assoc]
        · have hnoop := delta_step_noop s i d blk hg
            (fun _ => htx) (fun hh => absurd hh hd) (fun _ => hth) (fun _ => hth)
          obtain ⟨blk', tub', h1, h2, h3⟩ := ih ds' s blk tub hf' hg htu htx hth
          refine ⟨blk', tub', ?_, h2, ?_⟩
          · show (processEvents (updateMessage s (deltaEvt i d)) mid).message.content[i]? =
              some blk'
            rw [hnoop]
            exact h1
          · show (processEvents (updateMessage s (deltaEvt i d)) mid).jsonBuffers i = _
            rw [hnoop, h3]
            simp [jsonFragsOf, hd]

/-- If a run of deltas holds no `signature_delta`, it leaves a signature
value alone. -/
theorem lastSigD_no_write (ds : List Delta) (h : sigWritesOf ds = []) :
    ∀ sig, lastSigD sig ds = sig := by
  induction ds with
  | nil => intro sig; rfl
  | cons d ds ih =>
    intro sig
    by_cases hd : d.type = "signature_delta"
    · rw [sigWritesOf, if_pos hd] at h
      simp at h
    · rw [sigWritesOf, if_neg hd] at h
      rw [lastSigD, if_neg hd]
      exact ih h sig

/-- The signature surviving a run whose last `signature_delta` is `dv` is
`dv`'s payload. -/
theorem lastSigD_last (ds1 ds2 : List Delta) (dv : Delta)
    (hdv : dv.type = "signature_delta") (h : sigWritesOf ds2 = []) :
    ∀ sig, lastSigD sig (ds1 ++ dv :: ds2) = dv.signature := by
  induction ds1 with
  | nil =>
    intro sig
    rw [List.nil_append, lastSigD, if_pos hdv]
    exact lastSigD_no_write ds2 h dv.signature
  | cons d ds1 ih =>
    intro sig
    rw [List.cons_append, lastSigD]
    by_cases hd : d.type = "signature_delta"
    · rw [if_pos hd]
      exact ih d.signature
    · rw [if_neg hd]
      exact ih sig

/-- C2: for every event sequence in which the content-block events at index
`i` are exactly a start carrying an empty-text snapshot, then a run of
deltas `ds` (arbitrarily interleaved with events of other indices; delta
kinds other than `text_delta` are tolerated no-ops), then the stop for `i`
(followed by further events not targeting `i`), the final accumulated text
at `i` is the concatenation of the run's `text_delta` fragments, in event
order. -/
theorem text_accumulates_concat (i : Nat) (ty : String) (ds : List Delta)
    (s0 : MessageStream) (es0 mid es1 : List Event)
    (hmid : mid.filter (fun e => touches e i) = ds.map (deltaEvt i))
    (hes1 : es1.filter (fun e => touches e i) = []) :
    textAt (processEvents s0
        (es0 ++ startEvt i (textSnap ty "") :: (mid ++ stopEvt i :: es1))).message i =
      some (strConcat (textFragsOf ds)) := by
  have heq : processEvents s0
      (es0 ++ startEvt i (textSnap ty "") :: (mid ++ stopEvt i :: es1)) =
      processEvents (updateMessage (processEvents
        (updateMessage (processEvents s0 es0) (startEvt i (textSnap ty ""))) mid)
        (stopEvt i)) es1 := by
    simp only [processEvents, List.foldl_append, List.foldl_cons]
  obtain ⟨hsnap, -⟩ :=
    start_step (processEvents s0 es0) i (textSnap ty "")
  obtain ⟨blk', tb', hg3, htb3, htool3, htext3⟩ :=
    textDelta_runs i mid ds
      (updateMessage (processEvents s0 es0) (startEvt i (textSnap ty "")))
      (textSnap ty "") { type := ty, text := "" } hmid hsnap rfl rfl rfl
  have hstop :
      updateMessage (processEvents
        (updateMessage (processEvents s0 es0) (startEvt i (textSnap ty ""))) mid)
        (stopEvt i) =
      processEvents
        (updateMessage (processEvents s0 es0) (startEvt i (textSnap ty ""))) mid :=
    stop_step_nonTool _ i blk' hg3 htool3
  rw [heq, hstop]
  obtain ⟨hlt3, -⟩ := List.getElem?_eq_some_iff.mp hg3
  obtain ⟨hg5, -, -⟩ := processEvents_frame i es1 _ hes1 hlt3
  rw [textAt, hg5, hg3]
  simp [htb3, htext3, String.empty_append]

/-- Witness for `text_accumulates_concat`: fragments "Hel" and "lo" with a
mismatched `thinking_delta` interleaved yield "Hello". -/
theorem text_accumulates_concat_witness :
    textAt (processEvents initialStream
        ([] ++ startEvt 0 (textSnap "text" "") ::
          ([textDeltaEvt 0 "Hel", thinkingDeltaEvt 0 "zz", textDeltaEvt 0 "lo"] ++
            stopEvt 0 :: []))).message 0 =
      some "Hello" :=
  text_accumulates_concat 0 "text"
    [{ type := "text_delta", text := "Hel" }, { type := "thinking_delta", thinking := "zz" },
      { type := "text_delta", text := "lo" }]
    initialStream []
    [textDeltaEvt 0 "Hel", thinkingDeltaEvt 0 "zz", textDeltaEvt 0 "lo"] [] rfl rfl

/-- C6: for every event sequence delivered to a thinking block at index `i`
whose `i`-targeted events are a start with snapshot `th0` followed by a run
of deltas whose last `signature_delta` is `dv`, then stop, the final
signature equals `dv`'s payload — replacement, not concatenation. -/
theorem signature_last_write_wins (i : Nat) (th0 : ThinkingBlock)
    (ds1 ds2 : List Delta) (dv : Delta) (s0 : MessageStream) (es0 mid : List Event)
    (hmid : mid.filter (fun e => touches e i) = (ds1 ++ dv :: ds2).map (deltaEvt i))
    (hdv : dv.type = "signature_delta")
    (hds2 : sigWritesOf ds2 = []) :
    signatureAt (processEvents s0
        (es0 ++ startEvt i (thinkSnap th0) :: (mid ++ stopEvt i :: []))).message i =
      some dv.signature := by
  have heq : processEvents s0
      (es0 ++ startEvt i (thinkSnap th0) :: (mid ++ stopEvt i :: [])) =
      processEvents (updateMessage (processEvents
        (updateMessage (processEvents s0 es0) (startEvt i (thinkSnap th0))) mid)
        (stopEvt i)) [] := by
    simp only [processEvents, List.foldl_append, List.foldl_cons]
  obtain ⟨hsnap, -⟩ := start_step (processEvents s0 es0) i (thinkSnap th0)
  obtain ⟨blk', th', hg3, hth3, htool3, hsig3⟩ :=
    think_runs i mid (ds1 ++ dv :: ds2)
      (updateMessage (processEvents s0 es0) (startEvt i (thinkSnap th0)))
      (thinkSnap th0) th0 hmid hsnap rfl rfl rfl
  have hstop :
      updateMessage (processEvents
        (updateMessage (processEvents s0 es0) (startEvt i (thinkSnap th0))) mid)
        (stopEvt i) =
      processEvents
        (updateMessage (processEvents s0 es0) (startEvt i (thinkSnap th0))) mid :=
    stop_step_nonTool _ i blk' hg3 htool3
  rw [heq, hstop]
  obtain ⟨hlt3, -⟩ := List.getElem?_eq_some_iff.mp hg3
  obtain ⟨hg5, -, -⟩ := processEvents_frame i [] _ rfl hlt3
  rw [signatureAt, hg5, hg3]
  simp [hth3, hsig3, lastSigD_last ds1 ds2 dv hdv hds2]

/-- Witness for `signature_last_write_wins`: two signature writes
interleaved with thinking text leave the second signature. -/
theorem signature_last_write_wins_witness :
    signatureAt (processEvents initialStream
        ([] ++ startEvt 0 (thinkSnap { type := "thinking", thinking := "", signature := "" }) ::
          ([thinkingDeltaEvt 0 "because", signatureDeltaEvt 0 "sigA",
            signatureDeltaEvt 0 "sigB", thinkingDeltaEvt 0 "so"] ++ stopEvt 0 :: []))).message 0 =
      some "sigB" :=
  signature_last_write_wins 0 { type := "thinking", thinking := "", signature := "" }
    [{ type := "thinking_delta", thinking := "because" },
      { type := "signature_delta", signature := "sigA" }]
    [{ type := "thinking_delta", thinking := "so" }]
    { type := "signature_delta", signature := "sigB" }
    initialStream []
    [thinkingDeltaEvt 0 "because", signatureDeltaEvt 0 "sigA",
      signatureDeltaEvt 0 "sigB", thinkingDeltaEvt 0 "so"]
    rfl rfl rfl

/-- C1 (counterexample): the single fragment `"{} "` concatenates to a text
that Go's `json.Unmarshal` accepts as a JSON object (trailing whitespace is
skipped), yet the code's untrimmed suffix check never fires, so after
`ContentBlockStop` the tool-use block's input is still the nil interface,
not the parsed empty object. -/
theorem tool_input_whitespace_counterexample :
    goUnmarshalObj (strConcat ["\x7b\x7d "]) = some [] ∧
      toolInputAt (processEvents initialStream
          [startEvt 0 (toolSnap { type := "tool_use", id := "t1", name := "f", input := none }),
            jsonDeltaEvt 0 "\x7b\x7d ", stopEvt 0]).message 0 = some none :=
  ⟨rfl, rfl⟩

/-- C1 (amended): for a tool-use block at index `i` receiving a run of
deltas `ds` (arbitrarily interleaved with events of other indices;
non-JSON delta kinds are tolerated no-ops), if the concatenation of the
run's `input_json_delta` fragments begins with `{`, ends with `}`, and
parses as a JSON object, then after the `ContentBlockStop` for `i` the
block's input is exactly that parsed object — for every way of chunking the
same payload into fragments. -/
theorem tool_input_rechunk_braced (i : Nat) (tub0 : ToolUseBlock) (ds : List Delta)
    (flds : List (String × JVal)) (s0 : MessageStream) (es0 mid : List Event)
    (hmid : mid.filter (fun e => touches e i) = ds.map (deltaEvt i))
    (hpre : goStartsWith (strConcat (jsonFragsOf ds)) "\x7b" = true)
    (hsuf : goEndsWith (strConcat (jsonFragsOf ds)) "\x7d" = true)
    (hparse : goUnmarshalObj (strConcat (jsonFragsOf ds)) = some flds) :
    toolInputAt (processEvents s0
        (es0 ++ startEvt i (toolSnap tub0) :: (mid ++ stopEvt i :: []))).message i =
      some (some (.obj flds)) := by
  have heq : processEvents s0
      (es0 ++ startEvt i (toolSnap tub0) :: (mid ++ stopEvt i :: [])) =
      processEvents (updateMessage (processEvents
        (updateMessage (processEvents s0 es0) (startEvt i (toolSnap tub0))) mid)
        (stopEvt i)) [] := by
    simp only [processEvents, List.foldl_append, List.foldl_cons]
  obtain ⟨hsnap, hbuf0⟩ := start_step (processEvents s0 es0) i (toolSnap tub0)
  obtain ⟨blk', tub', hg3, htu3, hbuf3⟩ :=
    jsonDelta_runs i mid ds
      (updateMessage (processEvents s0 es0) (startEvt i (toolSnap tub0)))
      (toolSnap tub0) tub0 hmid hsnap rfl rfl rfl
  rw [hbuf0 rfl, String.empty_append] at hbuf3
  rw [heq]
  exact stop_step_tool_parse _ i blk' tub' flds hg3 htu3
    (by rw [hbuf3]; exact hpre) (by rw [hbuf3]; exact hsuf) (by rw [hbuf3]; exact hparse)

/-- Witness for `tool_input_rechunk_braced`: a three-fragment chunking of
the payload with keys a and b, with a mismatched `thinking_delta`
interleaved. -/
theorem tool_input_rechunk_braced_witness :
    toolInputAt (processEvents initialStream
        ([] ++ startEvt 0 (toolSnap { type := "tool_use", id := "t1", name := "f", input := none }) ::
          ([jsonDeltaEvt 0 "\x7b\"a\"", jsonDeltaEvt 0 ":1,\"b\":2", thinkingDeltaEvt 0 "zz",
            jsonDeltaEvt 0 "\x7d"] ++ stopEvt 0 :: []))).message 0 =
      some (some (JVal.obj [("a", JVal.num "1"), ("b", JVal.num "2")])) :=
  tool_input_rechunk_braced 0 { type := "tool_use", id := "t1", name := "f", input := none }
    [{ type := "input_json_delta", partialJSON := "\x7b\"a\"" },
      { type := "input_json_delta", partialJSON := ":1,\"b\":2" },
      { type := "thinking_delta", thinking := "zz" },
      { type := "input_json_delta", partialJSON := "\x7d" }]
    [("a", JVal.num "1"), ("b", JVal.num "2")]
    initialStream []
    [jsonDeltaEvt 0 "\x7b\"a\"", jsonDeltaEvt 0 ":1,\"b\":2", thinkingDeltaEvt 0 "zz",
      jsonDeltaEvt 0 "\x7d"]
    rfl rfl rfl rfl

/-- C10: an event carrying index `i` modifies no content block already
present at another index `j`, and never shrinks the content sequence. -/
theorem event_touches_only_own_index (s : MessageStream) (e : Event) (i j : Nat)
    (hidx : e.index = some i) (hne : j ≠ i) (hj : j < s.message.content.length) :
    (updateMessage s e).message.content[j]? = s.message.content[j]? ∧
      s.message.content.length ≤ (updateMessage s e).message.content.length := by
  have h2 : (some i == some j) = false := beq_eq_false_iff_ne.mpr (by simpa using Ne.symm hne)
  have ht : touches e j = false := by
    simp [touches, hidx, h2]
  exact ⟨(updateMessage_frame s e j ht hj).1, updateMessage_length_mono s e⟩

/-- Witness for `event_touches_only_own_index`: a delta at index 1 leaves the
placeholder at index 0 unchanged. -/
theorem event_touches_only_own_index_witness :
    (updateMessage (updateMessage initialStream (startEvt 1 (textSnap "text" "")))
          (textDeltaEvt 1 "x")).message.content[0]? =
        (updateMessage initialStream (startEvt 1 (textSnap "text" ""))).message.content[0]? ∧
      (updateMessage initialStream (startEvt 1 (textSnap "text" ""))).message.content.length ≤
        (updateMessage (updateMessage initialStream (startEvt 1 (textSnap "text" "")))
          (textDeltaEvt 1 "x")).message.content.length :=
  event_touches_only_own_index
    (updateMessage initialStream (startEvt 1 (textSnap "text" "")))
    (textDeltaEvt 1 "x") 1 0 rfl (by decide) (by decide)

end Anthropic
